import Mathlib

/-!
Verification of the pyLink repository (NicLink chessboard bridge).

The file shallowly embeds the parts of the source that the checked claims
are about:

* `src/nicsoft/niclink/bluetooth/__main__.py`: the raw-snapshot decoder
  `board_fen` and its helper `fen_constructor`;
* `src/nicsoft/niclink/driver.py`: the move-inference routine
  `find_move_from_fen_change`, the polling entry points `check_for_move`
  and `await_move`, the LED constructors `build_led_map_for_move`,
  `square_cords` and `show_board_diff`, and the outcome classifier
  `is_game_over`;
* `src/nicsoft/lichess/__main__.py`: the submission loop `Game.make_move`.

The python-chess rules engine is an external collaborator of the
repository; it is modelled by the `Engine` structure, whose fields are the
exact operations the driver calls on `chess.Board` objects, together with
the two library guarantees the driver relies on (`pop` undoes `push`, and
checkmate means the side to move is in check with no legal move).
Logging calls, `print` statements and hardware writes are modelled as
pure no-ops or as elements of an explicit effect trace.
-/

/-! ## BoardCodec: `board_fen` from `src/nicsoft/niclink/bluetooth/__main__.py` -/

/-- `convertDict` from `src/nicsoft/niclink/bluetooth/__init__.py`: nibble
value to piece letter.  A key outside 0..12 raises `KeyError` in Python,
modelled by `none`. -/
def convertDict (code : Nat) : Option String :=
  match code with
  | 0 => some " "
  | 1 => some "q"
  | 2 => some "k"
  | 3 => some "b"
  | 4 => some "p"
  | 5 => some "n"
  | 6 => some "R"
  | 7 => some "P"
  | 8 => some "r"
  | 9 => some "B"
  | 10 => some "N"
  | 11 => some "Q"
  | 12 => some "K"
  | _ => none

/-- `fen_constructor(preceding_empty, piece_code)`: the number of preceding
empty squares (omitted when zero) followed by the piece letter. -/
def fen_constructor (preceding_empty : Nat) (piece_code : Nat) : Option String :=
  (convertDict piece_code).map fun piece =>
    if preceding_empty = 0 then piece else toString preceding_empty ++ piece

/-- One square of the `board_fen` loop body.  The running state is the FEN
string built so far and `c`, the count of empty squares since the last
piece in the current row.  An empty square bumps `c` and emits `"8"` when
`c` reaches 8; a piece emits `fen_constructor c s` and resets `c`. -/
def board_fen_square (st : String × Nat) (s : Nat) : Option (String × Nat) :=
  if s = 0 then
    some (if st.2 + 1 = 8 then (st.1 ++ "8", st.2 + 1) else (st.1, st.2 + 1))
  else do
    let piece ← fen_constructor st.2 s
    some (st.1 ++ piece, 0)

/-- One byte of the `board_fen` loop body: the high nibble `b >> 4` is the
first square, the low nibble `b & MASKLOW` the second. -/
def board_fen_byte (st : String × Nat) (b : Nat) : Option (String × Nat) := do
  let st1 ← board_fen_square st (b / 16)
  board_fen_square st1 (b % 16)

/-- `board_fen(data)` from `src/nicsoft/niclink/bluetooth/__main__.py`.
For each `counterColum` in `range(0, 8)` the four bytes
`data[4*i : 4*i+4]` are processed in reversed order, two squares per byte,
with the empty counter `c` reset to `0` at the start of every row.  After
every row the source runs `if counterColum != 8: FEN += "/"`;
`counterColum` ranges over 0..7, so the test is always true and a slash is
appended after every row, the last one included. -/
def board_fen (data : List Nat) : Option String :=
  (List.range 8).foldlM
    (fun fen i => do
      let row := ((data.drop (4 * i)).take 4).reverse
      let st ← row.foldlM board_fen_byte (fen, 0)
      pure (st.1 ++ "/"))
    ""

/-- Character weight inside one FEN rank segment: a decimal digit counts
that many squares, any other character (a piece letter) counts one. -/
def fenCharWeight (c : Char) : Nat :=
  if c.isDigit then c.toNat - 48 else 1

/-- Weight of one rank segment: the number of squares it describes. -/
def fenSegmentWeight (seg : List Char) : Nat :=
  (seg.map fenCharWeight).sum

/-- Split a character list at every `'/'` delimiter (so a trailing
delimiter produces a trailing empty segment). -/
def splitSlash : List Char → List (List Char)
  | [] => [[]]
  | c :: rest =>
    if c = '/' then [] :: splitSlash rest
    else
      match splitSlash rest with
      | [] => [[c]]
      | seg :: segs => (c :: seg) :: segs

/-- C2 as the spec words it, for comparison with the source decoder: the
output splits on `"/"` into exactly 8 rank segments (so in particular no
delimiter after the final rank) and every segment describes exactly 8
squares. -/
def c2SpecShape (s : String) : Prop :=
  (splitSlash s.toList).length = 8 ∧
    ∀ seg ∈ splitSlash s.toList, fenSegmentWeight seg = 8

/-- A 32-byte snapshot holding a single black rook on A8 (high nibble of
`data[3]`, value 8) and 63 empty squares. -/
def c2FailingSnapshot : List Nat :=
  [0, 0, 0, 128] ++ List.replicate 28 0

/-! ## The rules-engine collaborator

`driver.py` calls a fixed set of operations on `chess.Board` objects.
They are collected in `Engine`, parameterized by the board type `B` and
the move type `M`, together with the two python-chess guarantees the
driver relies on: `Board.pop` undoes the matching `push` exactly, and
`Board.is_checkmate()` holds exactly when the side to move is in check
and has no legal move. -/

structure Engine (B M : Type) where
  /-- `Board.board_fen()`: the piece-placement field of the position. -/
  board_fen : B → String
  /-- `Board.legal_moves`, in the engine's enumeration order. -/
  legal_moves : B → List M
  /-- `Board.push(move)`, as the board it produces. -/
  push : B → M → B
  /-- `Board.pop()`: the popped move and the board it leaves, or `none`
  when the move stack is empty (`IndexError` in Python). -/
  pop : B → Option (M × B)
  /-- `Move.uci()`. -/
  uci : M → String
  /-- `Board.turn`: `true` for white to move. -/
  turn : B → Bool
  /-- `Board.is_check()`: the side to move is in check. -/
  is_check : B → Bool
  /-- `Board.is_checkmate()`. -/
  is_checkmate : B → Bool
  /-- `Board.is_stalemate()`. -/
  is_stalemate : B → Bool
  /-- `Board.is_insufficient_material()`. -/
  is_insufficient_material : B → Bool
  /-- `Board.is_fivefold_repetition()`. -/
  is_fivefold_repetition : B → Bool
  /-- `Board.is_seventyfive_moves()`. -/
  is_seventyfive_moves : B → Bool
  /-- python-chess guarantee: pushing a popped move back restores the
  board, as `check_for_move` relies on after its debounce peek. -/
  pop_push : ∀ b m b2, pop b = some (m, b2) → push b2 m = b
  /-- python-chess definition of mate: the side to move is in check and
  has no legal move. -/
  checkmate_iff : ∀ b,
    is_checkmate b = (is_check b && (legal_moves b).isEmpty)

/-! ## MoveInference: `find_move_from_fen_change` from `driver.py` -/

/-- Typed failures of `find_move_from_fen_change`
(`nl_exceptions.NoMove` and `nl_exceptions.IllegalMove`); the
`illegalMove` payload carries the reported and the authoritative
position, which the source embeds in the exception message and displays
through `show_board_diff`. -/
inductive FindMoveError where
  | noMove : FindMoveError
  | illegalMove (reported : String) (prior : String) : FindMoveError
deriving DecidableEq

/-- LED and timing side effects of the polling code, kept as an explicit
trace. -/
inductive Effect where
  | showDiff (reported : String) (prior : String) : Effect
  | sleepRefresh : Effect
  | ledsOff : Effect
deriving DecidableEq

/-- The `for move in legal_moves` loop of `find_move_from_fen_change`:
`tmp_board.push(move)`, compare `tmp_board.board_fen()` with `new_fen`,
return the move on the first match, else `tmp_board.pop()` and continue.
Since `pop` undoes `push` exactly (`Engine.pop_push`), every iteration
compares a single move pushed onto the same base board `gb`. -/
def find_move_loop (E : Engine B M) (gb : B) (new_fen : String) :
    List M → Option M
  | [] => none
  | m :: rest =>
    if E.board_fen (E.push gb m) = new_fen then some m
    else find_move_loop E gb new_fen rest

/-- `find_move_from_fen_change(new_fen)` from `driver.py`.  Raises
`NoMove` when the reported fen equals the current board fen, returns the
first legal move whose application reproduces `new_fen` in UCI form, and
otherwise shows the board diff and raises `IllegalMove` carrying both
positions.  Logging is modelled as a no-op. -/
def find_move_from_fen_change (E : Engine B M) (gb : B) (new_fen : String) :
    Except FindMoveError String × List Effect :=
  let old_fen := E.board_fen gb
  if new_fen = old_fen then (.error .noMove, [])
  else
    match find_move_loop E gb new_fen (E.legal_moves gb) with
    | some m => (.ok (E.uci m), [])
    | none => (.error (.illegalMove new_fen old_fen), [.showDiff new_fen old_fen])

/-! ## BoardSyncManager state and `check_for_move` -/

/-- The manager state that `check_for_move` reads and writes: the
authoritative `game_board` and the stored `last_move`.  The
`game_over` / `kill_switch` events are owned by other threads and enter
the model as explicit inputs. -/
structure NlState (B : Type) where
  game_board : B
  last_move : Option String

/-- Exceptions that can escape `check_for_move`: the explicit
`ValueError("No fen from chessboard")` and the `NoMove` raised inside
`find_move_from_fen_change`, which `check_for_move` does not catch. -/
inductive CheckError where
  | valueError : CheckError
  | noMove : CheckError
deriving DecidableEq

/-- Result of one `check_for_move` call: the post-call manager state
(unchanged when an exception propagates), the Python return value
(`.ok none` for `False`, `.ok (some mv)` for a move string) or the
escaping exception, and the trace of LED/sleep effects. -/
structure CheckOutcome (B : Type) where
  state : NlState B
  result : Except CheckError (Option String)
  effects : List Effect

/-- The source line `if new_fen != self.game_board.board_fen:` compares
the string `new_fen` with the bound method object `board_fen` itself (the
call parentheses are missing); in Python a string never equals a method,
so the test is always true. -/
def fen_neq_bound_method (new_fen : String) : Bool := true

/-- `check_for_move()` from `driver.py`.  Reads the external fen
(`none` models the interface returning no fen, which raises
`ValueError`); peeks one move back with `pop`/`push` to debounce the
"opponent's piece not moved yet" snapshot; then, the bound-method
comparison being always true, consults `game_over`, and otherwise runs
`find_move_from_fen_change`: `IllegalMove` is caught (diff display, one
refresh sleep, return `False`), `NoMove` propagates, and a found move is
stored in `last_move` and returned. -/
def check_for_move (E : Engine B M) (s : NlState B) (game_over : Bool)
    (new_fen? : Option String) : CheckOutcome B :=
  match new_fen? with
  | none => ⟨s, .error .valueError, []⟩
  | some new_fen =>
    let debounce : Bool :=
      match E.pop s.game_board with
      | some (_, prior) => E.board_fen prior == new_fen
      | none => false
    if debounce then ⟨s, .ok none, [.sleepRefresh]⟩
    else if fen_neq_bound_method new_fen then
      if game_over then ⟨s, .ok none, []⟩
      else
        match find_move_from_fen_change E s.game_board new_fen with
        | (.ok mv, effs) => ⟨{ s with last_move := some mv }, .ok (some mv), effs⟩
        | (.error .noMove, effs) => ⟨s, .error .noMove, effs⟩
        | (.error (.illegalMove r p), effs) =>
          ⟨s, .ok none, effs ++ [.showDiff r p, .sleepRefresh]⟩
    else
      -- dead branch: `fen_neq_bound_method` is constantly true, so the
      -- source's "no change in fen" path (lights out, sleep, return
      -- False) is unreachable
      ⟨s, .ok none, [.ledsOff, .sleepRefresh]⟩

/-! ## `await_move` -/

/-- One iteration's view of the concurrent flags and the hardware fen:
`kill_switch`, `game_over`, and the value `nl_interface.get_fen()`
returns at that poll. -/
structure Poll where
  kill : Bool
  game_over : Bool
  fen : Option String
deriving DecidableEq

/-- How an `await_move` run ends.  `stillWaiting` means the modelled poll
trace was exhausted while the loop was still retrying: the real loop
would keep polling. -/
inductive AwaitOutcome (B : Type) where
  | move (m : String) (s : NlState B)
  | cancelled (s : NlState B)
  | exitNicLink (s : NlState B)
  | valueError (s : NlState B)
  | stillWaiting (s : NlState B)

/-- `await_move()` from `driver.py`, driven by a trace of polls.  The
loop runs while `kill_switch` is unset and afterwards raises
`ExitNicLink`; inside, a set `game_over` returns `None`; then
`check_for_move` runs: a truthy returned move is fetched with
`get_last_move` and returned, `False` continues, a raised `NoMove` is
caught (short sleep) and continues, and `ValueError` propagates.  (The
`except IllegalMove` arm of the source is dead code: `check_for_move`
catches `IllegalMove` itself.) -/
def await_move (E : Engine B M) : NlState B → List Poll → AwaitOutcome B
  | s, [] => .stillWaiting s
  | s, p :: rest =>
    if p.kill then .exitNicLink s
    else if p.game_over then .cancelled s
    else
      let out := check_for_move E s p.game_over p.fen
      match out.result with
      | .error .valueError => .valueError out.state
      | .error .noMove => await_move E out.state rest
      | .ok none => await_move E out.state rest
      | .ok (some mv) =>
        -- `if self.check_for_move():` tests string truthiness, so an
        -- empty string would not be returned
        if mv = "" then await_move E out.state rest
        else .move mv out.state

/-! ## `is_game_over` -/

/-- The dict `is_game_over` builds: `{"over": ..., "winner": ...,
"reason": ...}`.  `winner` is a python-chess color for checkmate and the
literal `False` for every drawn outcome, so it stays a `Bool` here
exactly as in the source. -/
structure GameOverInfo where
  over : Bool
  winner : Bool
  reason : String
deriving DecidableEq

/-- `is_game_over()` from `driver.py`: the first matching terminal
classifier wins; `none` models the final `return False`. -/
def is_game_over (E : Engine B M) (gb : B) : Option GameOverInfo :=
  if E.is_checkmate gb then
    some ⟨true, E.turn gb, "checkmate"⟩
  else if E.is_stalemate gb then
    some ⟨true, false, "Is a stalemate"⟩
  else if E.is_insufficient_material gb then
    some ⟨true, false, "Is insufficient material"⟩
  else if E.is_fivefold_repetition gb then
    some ⟨true, false, "Is fivefold repetition."⟩
  else if E.is_seventyfive_moves gb then
    some ⟨true, false,
      "A game is automatically drawn if the half-move clock since a capture or pawn move is equal to or greater than 150. Other means to end a game take precedence."⟩
  else none

/-! ## GameSession move submission: `Game.make_move` from
`src/nicsoft/lichess/__main__.py` -/

/-- Classification of one `berserk_board_client.make_move` attempt:
success, a `ResponseError` whose text contains
"Not your turn, or game already over" (terminal), or any other
`ResponseError` (transient). -/
inductive SubmitOutcome where
  | success : SubmitOutcome
  | terminalRejection : SubmitOutcome
  | transientRejection : SubmitOutcome
deriving DecidableEq

/-- How a `make_move` call ends.  `gameDone` models the
`self.game_done()` call, which raises `NicLinkGameOver` and terminates
the session; `exhausted` means the modelled outcome trace ended while
the loop was still retrying. -/
inductive MakeMoveEnd where
  | returned : MakeMoveEnd
  | notYourTurnBreak : MakeMoveEnd
  | illegalMoveBreak : MakeMoveEnd
  | gameDone : MakeMoveEnd
  | exhausted : MakeMoveEnd
deriving DecidableEq

/-- `Game.make_move(move)` driven by a trace of per-attempt outcomes,
threading `self.response_error_on_last_attempt` (the bool that enters a
fresh `Game` as `False`, is cleared by `signal_move` on success, set
after a first transient rejection, and — when already set — cleared just
before `game_done()` ends the session).  A `None` move raises
`IllegalMove`, caught by the `except IllegalMove` arm: break.  A
terminal rejection breaks with no retry; a transient rejection sleeps
the fixed 3-second backoff and retries.  The `while not
game_over.is_set()` guard is modelled with the game-over event unset for
the duration of the call. -/
def make_move (move? : Option String) :
    Bool → List SubmitOutcome → MakeMoveEnd × Bool
  | flag, [] =>
    if move?.isNone then (.illegalMoveBreak, flag) else (.exhausted, flag)
  | flag, o :: rest =>
    if move?.isNone then (.illegalMoveBreak, flag)
    else
      match o with
      | .success => (.returned, false)
      | .terminalRejection => (.notYourTurnBreak, flag)
      | .transientRejection =>
        if flag then (.gameDone, false)
        else make_move move? true rest

/-! ## LED codec: `square_cords` and `build_led_map_for_move` from
`driver.py`

The numpy LED maps are arrays of eight 8-character strings (dtype
`<U8`), modelled as `List (List Char)`.  Assigning a longer string to a
`<U8` cell silently truncates it to 8 characters; the splice
`zeros[:f] + "1" + zeros[f:]` is 9 characters long, so the stored row is
its first 8 characters. -/

/-- The module constant `FILES`. -/
def FILES : List Char := ['a', 'b', 'c', 'd', 'e', 'f', 'g', 'h']

/-- The rank digits a well-formed square name may carry. -/
def RANK_DIGITS : List Char := ['1', '2', '3', '4', '5', '6', '7', '8']

/-- The local string `zeros = "00000000"`. -/
def zeros8 : List Char := List.replicate 8 '0'

/-- The module constant `ZEROS`: eight all-zero rows. -/
def ZEROS : List (List Char) := List.replicate 8 zeros8

/-- The row value `zeros[:f] + "1" + zeros[f:]` after numpy's `<U8`
truncation to 8 characters: bit `f` set, all others clear. -/
def insert_led (f : Nat) : List Char :=
  (zeros8.take f ++ '1' :: zeros8.drop f).take 8

/-- `int(square[1])` in `square_cords`: Python `int()` raises
`ValueError` on a non-digit, modelled by `none`. -/
def parse_digit (c : Char) : Option Nat :=
  if c.isDigit then some (c.toNat - 48) else none

/-- The `while file_num < 8` scan of `square_cords` (and of `set_led`):
the index of the first element of `FILES` equal to the letter. -/
def file_scan (letter : Char) : List Char → Option Nat
  | [] => none
  | c :: rest =>
    if letter = c then some 0 else (file_scan letter rest).map (· + 1)

/-- `square_cords(square)` from `driver.py`: 0-based `(file, rank)` of an
algebraic square name; an unknown file letter or a short/degenerate
square string raises `ValueError` (the rank digit goes through `int`,
which raises on non-digits). -/
def square_cords (sq : List Char) : Except String (Nat × Nat) :=
  match sq with
  | c0 :: c1 :: _ =>
    match parse_digit c1 with
    | none => .error "invalid literal for int"
    | some d =>
      match file_scan c0 FILES with
      | some f => .ok (f, d - 1)
      | none => .error "is not a valid file"
  | _ => .error "string index out of range"

/-- `build_led_map_for_move(move)` from `driver.py`:
`s1 = move[:2]`, `s2 = move[2:]`; when the ranks differ each square's row
is the zero row with its file bit spliced in (rows set one after the
other on a copy of `ZEROS`); when the ranks agree a single row is built
as a character list with both file bits set. -/
def build_led_map_for_move (move : List Char) :
    Except String (List (List Char)) :=
  match square_cords (move.take 2) with
  | .error e => .error e
  | .ok c1 =>
    match square_cords (move.drop 2) with
    | .error e => .error e
    | .ok c2 =>
      if c1.2 ≠ c2.2 then
        .ok ((ZEROS.set c1.2 (insert_led c1.1)).set c2.2 (insert_led c2.1))
      else
        .ok (ZEROS.set c1.2 ((zeros8.set c1.1 '1').set c2.1 '1'))

/-- Whether the LED for square `(rank rk, file f)` is lit in a map. -/
def ledBit (map : List (List Char)) (rk f : Nat) : Bool :=
  (map.getD rk zeros8).getD f '0' == '1'

/-- A well-formed UCI move: two distinct squares with valid file letters
and rank digits, optionally followed by a promotion piece letter. -/
def wf_uci (move : List Char) : Prop :=
  match move with
  | [a, b, c, d] =>
    a ∈ FILES ∧ b ∈ RANK_DIGITS ∧ c ∈ FILES ∧ d ∈ RANK_DIGITS ∧ (a, b) ≠ (c, d)
  | [a, b, c, d, _] =>
    a ∈ FILES ∧ b ∈ RANK_DIGITS ∧ c ∈ FILES ∧ d ∈ RANK_DIGITS ∧ (a, b) ≠ (c, d)
  | _ => False

/-! ## `show_board_diff` from `driver.py` -/

/-- `Board.piece_at` of the two compared boards, by 0-based
`(file, rank)`; `none` is an empty square. -/
def PBoard : Type := Nat → Nat → Option Nat

/-- The algebraic square name `chr(a) + str(n + 1)` built inside the
`show_board_diff` loops, from 0-based file and rank. -/
def square_name (fl rk : Nat) : List Char :=
  [Char.ofNat (97 + fl), Char.ofNat (49 + rk)]

/-- Python `needle in haystack` substring test on strings, used by
`square_in_last_move`. -/
def startsWithSub : List Char → List Char → Bool
  | [], _ => true
  | _ :: _, [] => false
  | a :: as, b :: bs => a == b && startsWithSub as bs

/-- Whether `needle` occurs as a contiguous substring of the second
argument. -/
def substring_of (needle : List Char) : List Char → Bool
  | [] => startsWithSub needle []
  | c :: rest => startsWithSub needle (c :: rest) || substring_of needle rest

/-- `square_in_last_move(square)` from `driver.py`: false when
`self.last_move` is falsy (`None` or empty), else the Python substring
test `square in self.last_move`. -/
def square_in_last_move (last_move : Option (List Char)) (square : List Char) :
    Bool :=
  match last_move with
  | none => false
  | some lm => !lm.isEmpty && substring_of square lm

/-- One inner-loop step of `show_board_diff` at rank `rk`, file `fl`.
When the occupants differ the diff flag is raised only if the square is
not part of the last move, but the map row is overwritten regardless —
and it is rebuilt from the constant `zeros` string, so a second
differing square in the same rank replaces the first bit instead of
adding to it. -/
def show_board_diff_step (b1 b2 : PBoard) (lm : Option (List Char)) (rk : Nat)
    (st : Bool × List (List Char)) (fl : Nat) : Bool × List (List Char) :=
  if b1 fl rk ≠ b2 fl rk then
    ((st.1 || !square_in_last_move lm (square_name fl rk)),
      st.2.set rk (insert_led fl))
  else st

/-- `show_board_diff(board1, board2)` from `driver.py`: for `n` in
`range(0, 8)` and `a` in `range(ord("a"), ord("h"))` — files a..g only,
the h-file is never visited — compare the occupants and accumulate the
diff flag and the LED map.  Returns the flag (the source's return value)
and the map it would display. -/
def show_board_diff (b1 b2 : PBoard) (lm : Option (List Char)) :
    Bool × List (List Char) :=
  (List.range 8).foldl
    (fun st rk => (List.range 7).foldl (show_board_diff_step b1 b2 lm rk) st)
    (false, ZEROS)

/-- C5 as the spec words it, for comparison with the source: a bit for
exactly the squares — over all 64 — whose occupant differs, excluding
squares covered by the last highlighted move, and the flag true iff at
least one such square exists. -/
def c5SpecShape (b1 b2 : PBoard) (lm : Option (List Char)) : Prop :=
  (∀ fl < 8, ∀ rk < 8,
    (ledBit (show_board_diff b1 b2 lm).2 rk fl = true ↔
      (b1 fl rk ≠ b2 fl rk ∧
        ¬ square_in_last_move lm (square_name fl rk) = true))) ∧
  ((show_board_diff b1 b2 lm).1 = true ↔
    ∃ fl < 8, ∃ rk < 8, b1 fl rk ≠ b2 fl rk ∧
      ¬ square_in_last_move lm (square_name fl rk) = true)

/-! ## Concrete instances used as witnesses -/

/-- A small concrete rules engine (boards and moves are numbers, a
board's fen is its decimal string, pushing adds, board 5 is a mate)
used to evaluate the driver model on explicit inputs. -/
def demoEngine : Engine Nat Nat where
  board_fen b := toString b
  legal_moves b := if b = 0 then [1, 2] else []
  push b m := b + m
  pop _ := none
  uci m := toString m
  turn _ := false
  is_check b := b == 5
  is_checkmate b := b == 5 && (if b = 0 then ([1, 2] : List Nat) else []).isEmpty
  is_stalemate _ := false
  is_insufficient_material _ := false
  is_fivefold_repetition _ := false
  is_seventyfive_moves _ := false
  pop_push := fun _ _ _ h => Option.noConfusion h
  checkmate_iff := fun _ => rfl

/-- Left board of the C5 counterexample: entirely empty. -/
def c5BoardEmpty : PBoard := fun _ _ => none

/-- Right board of the C5 counterexample: a single piece on h1
(file 7, rank 0), the one file `show_board_diff` never visits. -/
def c5BoardH1 : PBoard := fun fl rk => if fl = 7 && rk = 0 then some 1 else none

/-! ## Theorems -/

/-- C2: on the single-rook snapshot the decoder emits
`"r/8/8/8/8/8/8/8/"`: a delimiter after the final rank (the comment in
the source says "a slash is needed for all but the last row", but the
guard `counterColum != 8` is always true), and a first segment of weight
1 because an empty run that ends a row without reaching 8 is never
emitted.  Both break the shape the claim states. -/
theorem board_fen_breaks_fen_shape :
    board_fen c2FailingSnapshot = some "r/8/8/8/8/8/8/8/" ∧
      ¬ c2SpecShape "r/8/8/8/8/8/8/8/" := by
  constructor
  · rfl
  · unfold c2SpecShape
    decide

/-- The brute-force scan either returns the first legal move whose
application reproduces `new_fen`, or returns `none` when no scanned move
does. -/
theorem find_move_loop_cases (E : Engine B M) (gb : B) (new_fen : String)
    (L : List M) :
    (∃ m ∈ L, E.board_fen (E.push gb m) = new_fen ∧
        find_move_loop E gb new_fen L = some m) ∨
      ((∀ m ∈ L, E.board_fen (E.push gb m) ≠ new_fen) ∧
        find_move_loop E gb new_fen L = none) := by
  induction L with
  | nil => exact Or.inr ⟨by simp, rfl⟩
  | cons m rest ih =>
    by_cases h : E.board_fen (E.push gb m) = new_fen
    · exact Or.inl ⟨m, by simp, h, by simp [find_move_loop, h]⟩
    · rcases ih with ⟨m2, hm2, hfen, hres⟩ | ⟨hall, hres⟩
      · exact Or.inl ⟨m2, by simp [hm2], hfen,
          by simp [find_move_loop, h, hres]⟩
      · refine Or.inr ⟨?_, by simp [find_move_loop, h, hres]⟩
        intro x hx
        rcases List.mem_cons.mp hx with rfl | hx
        · exact h
        · exact hall x hx

/-- C1: `find_move_from_fen_change` raises `NoMove` when the reported
fen equals the current board fen; otherwise, when some legal move of the
current state reproduces the reported fen, it returns such a move in UCI
form; and when no legal move does, it raises `IllegalMove` carrying both
positions. -/
theorem find_move_from_fen_change_spec (E : Engine B M) (gb : B)
    (new_fen : String) :
    (new_fen = E.board_fen gb ∧
        (find_move_from_fen_change E gb new_fen).1 = .error .noMove) ∨
      (new_fen ≠ E.board_fen gb ∧
        ∃ m ∈ E.legal_moves gb, E.board_fen (E.push gb m) = new_fen ∧
          (find_move_from_fen_change E gb new_fen).1 = .ok (E.uci m)) ∨
      (new_fen ≠ E.board_fen gb ∧
        (∀ m ∈ E.legal_moves gb, E.board_fen (E.push gb m) ≠ new_fen) ∧
        (find_move_from_fen_change E gb new_fen).1 =
          .error (.illegalMove new_fen (E.board_fen gb))) := by
  by_cases heq : new_fen = E.board_fen gb
  · exact Or.inl ⟨heq, by simp [find_move_from_fen_change, heq]⟩
  · rcases find_move_loop_cases E gb new_fen (E.legal_moves gb) with
      ⟨m, hm, hfen, hres⟩ | ⟨hall, hres⟩
    · exact Or.inr (Or.inl ⟨heq, m, hm, hfen,
        by simp [find_move_from_fen_change, heq, hres]⟩)
    · exact Or.inr (Or.inr ⟨heq, hall,
        by simp [find_move_from_fen_change, heq, hres]⟩)

/-- C3: while the decoded snapshot equals the current authoritative
position, a `check_for_move` call leaves the manager state — the
authoritative `game_board` with its move stack, and the stored
`last_move` — exactly as it was, whichever way the call ends. -/
theorem check_for_move_unchanged_fen_state (E : Engine B M) (s : NlState B)
    (game_over : Bool) (new_fen : String)
    (h : new_fen = E.board_fen s.game_board) :
    (check_for_move E s game_over (some new_fen)).state = s := by
  have hfind : find_move_from_fen_change E s.game_board new_fen =
      (.error .noMove, []) := by
    simp [find_move_from_fen_change, h]
  simp only [check_for_move, hfind]
  split
  · rfl
  · simp only [fen_neq_bound_method, if_true]
    split
    · rfl
    · rfl

/-- C3 witness: a concrete call with the snapshot equal to the current
position leaves the concrete state untouched. -/
theorem check_for_move_unchanged_fen_state_witness :
    (check_for_move demoEngine ⟨0, none⟩ false (some "0")).state = ⟨0, none⟩ :=
  check_for_move_unchanged_fen_state demoEngine ⟨0, none⟩ false "0" (by decide)

/-- C10: when the reported fen equals the authoritative board fen and
neither the debounce peek nor the game-over flag applies, the `NoMove`
raised inside `find_move_from_fen_change` escapes `check_for_move`
instead of the "no change in fen" branch returning `False`: the change
test compares the string with the bound method `board_fen` itself and is
therefore true on this very fen. -/
theorem check_for_move_raises_noMove (E : Engine B M) (s : NlState B)
    (new_fen : String) (heq : new_fen = E.board_fen s.game_board)
    (hdeb : ∀ m prior, E.pop s.game_board = some (m, prior) →
      E.board_fen prior ≠ new_fen) :
    check_for_move E s false (some new_fen) = ⟨s, .error .noMove, []⟩ ∧
      fen_neq_bound_method new_fen = true := by
  have hfind : find_move_from_fen_change E s.game_board new_fen =
      (.error .noMove, []) := by
    simp [find_move_from_fen_change, heq]
  refine ⟨?_, rfl⟩
  simp only [check_for_move, hfind, fen_neq_bound_method, if_true]
  split
  · rename_i hd
    exfalso
    revert hd
    match hp : E.pop s.game_board with
    | none => simp
    | some (m, prior) =>
      simp only [beq_iff_eq]
      exact fun hd => hdeb m prior hp hd
  · rfl

/-- C10 witness: evaluated on the demo engine with an unchanged
snapshot, `check_for_move` ends in the escaping `NoMove`. -/
theorem check_for_move_raises_noMove_witness :
    check_for_move demoEngine ⟨0, none⟩ false (some "0") =
        ⟨⟨0, none⟩, .error .noMove, []⟩ ∧
      fen_neq_bound_method "0" = true :=
  check_for_move_raises_noMove demoEngine ⟨0, none⟩ "0" (by decide)
    (fun _ _ h => Option.noConfusion h)

/-- C8: when the reported position is unreachable by any legal move (and
differs from the authoritative fen, with debounce and game-over not
applying), `check_for_move` swallows the `IllegalMove`: it shows the
diff of the two positions (once inside `find_move_from_fen_change`, once
in the handler), sleeps one refresh delay, returns `False`, and leaves
the manager state unchanged. -/
theorem check_for_move_illegal_recoverable (E : Engine B M) (s : NlState B)
    (new_fen : String) (hne : new_fen ≠ E.board_fen s.game_board)
    (hdeb : ∀ m prior, E.pop s.game_board = some (m, prior) →
      E.board_fen prior ≠ new_fen)
    (hnol : ∀ m ∈ E.legal_moves s.game_board,
      E.board_fen (E.push s.game_board m) ≠ new_fen) :
    check_for_move E s false (some new_fen) =
      ⟨s, .ok none,
        [.showDiff new_fen (E.board_fen s.game_board),
          .showDiff new_fen (E.board_fen s.game_board), .sleepRefresh]⟩ := by
  have hloop : find_move_loop E s.game_board new_fen
      (E.legal_moves s.game_board) = none := by
    rcases find_move_loop_cases E s.game_board new_fen
        (E.legal_moves s.game_board) with ⟨m, hm, hfen, _⟩ | ⟨_, hres⟩
    · exact absurd hfen (hnol m hm)
    · exact hres
  have hfind : find_move_from_fen_change E s.game_board new_fen =
      (.error (.illegalMove new_fen (E.board_fen s.game_board)),
        [.showDiff new_fen (E.board_fen s.game_board)]) := by
    simp [find_move_from_fen_change, hne, hloop]
  simp only [check_for_move, hfind, fen_neq_bound_method, if_true]
  split
  · rename_i hd
    exfalso
    revert hd
    match hp : E.pop s.game_board with
    | none => simp
    | some (m, prior) =>
      simp only [beq_iff_eq]
      exact fun hd => hdeb m prior hp hd
  · rfl

/-- C8 witness: on the demo engine, a reported fen no legal move
reaches makes `check_for_move` display the diff and return `False` with
the state intact. -/
theorem check_for_move_illegal_recoverable_witness :
    check_for_move demoEngine ⟨0, none⟩ false (some "7") =
      ⟨⟨0, none⟩, .ok none,
        [.showDiff "7" "0", .showDiff "7" "0", .sleepRefresh]⟩ :=
  check_for_move_illegal_recoverable demoEngine ⟨0, none⟩ "7" (by decide)
    (fun _ _ h => Option.noConfusion h) (by decide)

/-- C9: on a checkmated internal board, `is_game_over` reports the game
over with reason `"checkmate"` and `winner` equal to `game_board.turn` —
the side to move, which by the engine's definition of mate is the
player standing in check with no legal reply, that is the checkmated
loser, not the side that delivered mate. -/
theorem is_game_over_checkmate (E : Engine B M) (gb : B)
    (h : E.is_checkmate gb = true) :
    is_game_over E gb = some ⟨true, E.turn gb, "checkmate"⟩ ∧
      E.is_check gb = true ∧ E.legal_moves gb = [] := by
  have h2 := E.checkmate_iff gb
  rw [h] at h2
  obtain ⟨hc, he⟩ := Bool.and_eq_true _ _ |>.mp h2.symm
  exact ⟨by simp [is_game_over, h], hc, List.isEmpty_iff.mp he⟩

/-- C9 witness: the demo engine's mate board evaluates to the checkmate
dict with `winner` the side to move. -/
theorem is_game_over_checkmate_witness :
    is_game_over demoEngine 5 = some ⟨true, demoEngine.turn 5, "checkmate"⟩ ∧
      demoEngine.is_check 5 = true ∧ demoEngine.legal_moves 5 = [] :=
  is_game_over_checkmate demoEngine 5 (by decide)

/-- C6: with the consecutive-failure flag clear (its state at session
start and after every successful submission), a terminal "not your turn,
or game already over" rejection ends `make_move` at once with no retry;
a transient rejection is retried (the call continues exactly as a fresh
attempt sequence with the flag set); with the flag set a further
transient rejection terminates the session through `game_done`; and
from a clear flag `game_done` is reached precisely when the first two
attempts are both transient rejections — never on the first. -/
theorem make_move_retry_policy (mv : String) (rest : List SubmitOutcome) :
    make_move (some mv) false (.terminalRejection :: rest) =
        (.notYourTurnBreak, false) ∧
      make_move (some mv) false (.transientRejection :: rest) =
        make_move (some mv) true rest ∧
      make_move (some mv) true (.transientRejection :: rest) =
        (.gameDone, false) ∧
      ((make_move (some mv) false (.transientRejection :: rest)).1 =
          .gameDone ↔ rest.head? = some .transientRejection) := by
  refine ⟨rfl, rfl, rfl, ?_⟩
  show (make_move (some mv) true rest).1 = .gameDone ↔ _
  cases rest with
  | nil => simp [make_move]
  | cons o rest2 => cases o <;> simp [make_move]

/-- When the interface does deliver a fen, `check_for_move` never raises
`ValueError`: its result is `False`, a move string, or the escaping
`NoMove`. -/
theorem check_for_move_result_cases (E : Engine B M) (s : NlState B)
    (game_over : Bool) (f : String) :
    (check_for_move E s game_over (some f)).result = .ok none ∨
      (∃ mv, (check_for_move E s game_over (some f)).result = .ok (some mv)) ∨
      (check_for_move E s game_over (some f)).result = .error .noMove := by
  simp only [check_for_move]
  split
  · exact Or.inl rfl
  · simp only [fen_neq_bound_method, if_true]
    split
    · exact Or.inl rfl
    · split
      · rename_i mv effs heq
        exact Or.inr (Or.inl ⟨mv, rfl⟩)
      · exact Or.inr (Or.inr rfl)
      · exact Or.inl rfl


/-- Unfolding of one `await_move` iteration whose poll has neither flag
set. -/
theorem await_move_cons (E : Engine B M) (s : NlState B) (p : Poll)
    (rest : List Poll) (hk : p.kill = false) (hg : p.game_over = false) :
    await_move E s (p :: rest) =
      match (check_for_move E s p.game_over p.fen).result with
      | .error .valueError =>
        .valueError (check_for_move E s p.game_over p.fen).state
      | .error .noMove =>
        await_move E (check_for_move E s p.game_over p.fen).state rest
      | .ok none =>
        await_move E (check_for_move E s p.game_over p.fen).state rest
      | .ok (some mv) =>
        if mv = "" then
          await_move E (check_for_move E s p.game_over p.fen).state rest
        else .move mv (check_for_move E s p.game_over p.fen).state := by
  simp [await_move, hk, hg]

/-- C7: as long as the hardware keeps delivering fens, an `await_move`
run ends only by returning a detected move, returning the cancellation
indicator `None`, or raising `ExitNicLink` (`stillWaiting` marks a
modelled trace that ran out while the loop was still polling — the real
loop keeps going); moreover `None` is returned only at a poll where the
game-over signal is set (with the kill switch unset), and `ExitNicLink`
is raised only at a poll where the kill switch is set. -/
theorem await_move_three_ways (E : Engine B M) (s : NlState B)
    (polls : List Poll) (hfen : ∀ p ∈ polls, p.fen.isSome = true) :
    ((∃ m st, await_move E s polls = .move m st) ∨
        (∃ st, await_move E s polls = .cancelled st) ∨
        (∃ st, await_move E s polls = .exitNicLink st) ∨
        (∃ st, await_move E s polls = .stillWaiting st)) ∧
      (∀ st, await_move E s polls = .cancelled st →
        ∃ p ∈ polls, p.kill = false ∧ p.game_over = true) ∧
      (∀ st, await_move E s polls = .exitNicLink st →
        ∃ p ∈ polls, p.kill = true) := by
  induction polls generalizing s with
  | nil =>
    refine ⟨Or.inr (Or.inr (Or.inr ⟨s, rfl⟩)), ?_, ?_⟩ <;>
      · intro st h
        simp [await_move] at h
  | cons p rest ih =>
    obtain ⟨f, hf⟩ := Option.isSome_iff_exists.mp (hfen p (by simp))
    by_cases hk : p.kill
    · refine ⟨Or.inr (Or.inr (Or.inl ⟨s, by simp [await_move, hk]⟩)), ?_, ?_⟩
      · intro st h
        simp [await_move, hk] at h
      · intro st _
        exact ⟨p, by simp, hk⟩
    · by_cases hg : p.game_over
      · refine ⟨Or.inr (Or.inl ⟨s, by simp [await_move, hk, hg]⟩), ?_, ?_⟩
        · intro st _
          exact ⟨p, by simp, by simp [hk], hg⟩
        · intro st h
          simp [await_move, hk, hg] at h
      · have hk2 : p.kill = false := by simp [hk]
        have hg2 : p.game_over = false := by simp [hg]
        have hcons := await_move_cons E s p rest hk2 hg2
        have hres0 := check_for_move_result_cases E s p.game_over f
        rw [← hf] at hres0
        have hdone : (await_move E s (p :: rest) =
            await_move E (check_for_move E s p.game_over p.fen).state rest) ∨
            (∃ mv, await_move E s (p :: rest) =
              .move mv (check_for_move E s p.game_over p.fen).state) := by
          rcases hres0 with hres | ⟨mv, hres⟩ | hres
          · rw [hcons, hres]
            exact Or.inl rfl
          · rw [hcons, hres]
            by_cases hmv : mv = ""
            · exact Or.inl (by simp [hmv])
            · exact Or.inr ⟨mv, by simp [hmv]⟩
          · rw [hcons, hres]
            exact Or.inl rfl
        rcases hdone with heq | ⟨mv, heq⟩
        · rw [heq]
          obtain ⟨h1, h2, h3⟩ :=
            ih (check_for_move E s p.game_over p.fen).state
              (fun q hq => hfen q (by simp [hq]))
          refine ⟨h1, ?_, ?_⟩
          · intro st h
            obtain ⟨q, hq, hqs⟩ := h2 st h
            exact ⟨q, by simp [hq], hqs⟩
          · intro st h
            obtain ⟨q, hq, hqs⟩ := h3 st h
            exact ⟨q, by simp [hq], hqs⟩
        · rw [heq]
          refine ⟨Or.inl ⟨mv, _, rfl⟩, ?_, ?_⟩ <;>
            · intro st h
              exact AwaitOutcome.noConfusion h

/-- C7 witness: a concrete two-poll trace (one uneventful poll, then the
kill switch) ends in one of the three claimed ways — here by raising
`ExitNicLink` at the kill poll. -/
theorem await_move_three_ways_witness :
    ((∃ m st, await_move demoEngine ⟨0, none⟩
          [⟨false, false, some "0"⟩, ⟨true, false, some "0"⟩] = .move m st) ∨
        (∃ st, await_move demoEngine ⟨0, none⟩
          [⟨false, false, some "0"⟩, ⟨true, false, some "0"⟩] = .cancelled st) ∨
        (∃ st, await_move demoEngine ⟨0, none⟩
          [⟨false, false, some "0"⟩, ⟨true, false, some "0"⟩] = .exitNicLink st) ∨
        (∃ st, await_move demoEngine ⟨0, none⟩
          [⟨false, false, some "0"⟩, ⟨true, false, some "0"⟩] = .stillWaiting st)) ∧
      (∀ st, await_move demoEngine ⟨0, none⟩
          [⟨false, false, some "0"⟩, ⟨true, false, some "0"⟩] = .cancelled st →
        ∃ p ∈ [(⟨false, false, some "0"⟩ : Poll), ⟨true, false, some "0"⟩],
          p.kill = false ∧ p.game_over = true) ∧
      (∀ st, await_move demoEngine ⟨0, none⟩
          [⟨false, false, some "0"⟩, ⟨true, false, some "0"⟩] = .exitNicLink st →
        ∃ p ∈ [(⟨false, false, some "0"⟩ : Poll), ⟨true, false, some "0"⟩],
          p.kill = true) :=
  await_move_three_ways demoEngine ⟨0, none⟩
    [⟨false, false, some "0"⟩, ⟨true, false, some "0"⟩] (by decide)

/-- `List.set` then `getD` at the written index (in range) reads the
written value. -/
theorem list_getD_set_self {α : Type} (l : List α) (i : Nat) (x d : α)
    (h : i < l.length) : (l.set i x).getD i d = x := by
  induction l generalizing i with
  | nil => simp at h
  | cons a t ih =>
    cases i with
    | zero => rfl
    | succ n => exact ih n (by simpa using h)

/-- `List.set` leaves every other index unchanged under `getD`. -/
theorem list_getD_set_ne {α : Type} (l : List α) (i j : Nat) (x d : α)
    (h : i ≠ j) : (l.set i x).getD j d = l.getD j d := by
  induction l generalizing i j with
  | nil => simp
  | cons a t ih =>
    cases i with
    | zero =>
      cases j with
      | zero => exact absurd rfl h
      | succ m => rfl
    | succ n =>
      cases j with
      | zero => rfl
      | succ m => exact ih n m (by omega)

/-- The `while` scan of `square_cords` finds every valid file letter at
an index below 8, and that index points back at the letter. -/
theorem file_scan_files :
    ∀ a ∈ FILES, ∃ f < 8, file_scan a FILES = some f ∧
      FILES.getD f ' ' = a := by decide

/-- The file scan is injective on valid file letters. -/
theorem file_scan_inj :
    ∀ a ∈ FILES, ∀ c ∈ FILES,
      file_scan a FILES = file_scan c FILES → a = c := by decide

/-- Every valid rank digit parses to a value between 1 and 8. -/
theorem parse_rank_digits :
    ∀ b ∈ RANK_DIGITS, ∃ r < 8, parse_digit b = some (r + 1) := by decide

/-- `int(square[1])` is injective on valid rank digits. -/
theorem parse_digit_inj :
    ∀ b ∈ RANK_DIGITS, ∀ d ∈ RANK_DIGITS,
      parse_digit b = parse_digit d → b = d := by decide

/-- The spliced-and-truncated row has exactly the bit of its file set. -/
theorem insert_led_getD :
    ∀ f < 8, ∀ i < 8,
      (insert_led f).getD i '0' = if i = f then '1' else '0' := by decide

/-- The all-zero row has no bit set. -/
theorem zeros8_getD : ∀ i < 8, zeros8.getD i '0' = '0' := by decide

/-- The same-rank row of `build_led_map_for_move` has exactly the two
file bits set. -/
theorem set_two_bits_getD :
    ∀ f1 < 8, ∀ f2 < 8, ∀ i < 8,
      ((zeros8.set f1 '1').set f2 '1').getD i '0' =
        if i = f1 ∨ i = f2 then '1' else '0' := by decide

/-- Any row of the all-zero map is the all-zero row. -/
theorem ZEROS_getD : ∀ r < 8, ZEROS.getD r zeros8 = zeros8 := by decide



/-- Core of the C4 argument for a move string `a b c d ++ tail` with
valid squares: the parses succeed with in-range coordinates, the squares
are distinct, and the built LED map lights exactly the two squares —
uniformly covering both the different-rank path (two row splices) and
the same-rank path (one doubly-set row). -/
theorem build_led_map_core (a b c d : Char) (tail : List Char)
    (ha : a ∈ FILES) (hb : b ∈ RANK_DIGITS) (hc : c ∈ FILES)
    (hd : d ∈ RANK_DIGITS) (hne : (a, b) ≠ (c, d)) :
    ∃ f1 r1 f2 r2,
      square_cords ((a :: b :: c :: d :: tail).take 2) = .ok (f1, r1) ∧
        square_cords ((a :: b :: c :: d :: tail).drop 2) = .ok (f2, r2) ∧
        f1 < 8 ∧ r1 < 8 ∧ f2 < 8 ∧ r2 < 8 ∧ ¬(f1 = f2 ∧ r1 = r2) ∧
        ∃ map, build_led_map_for_move (a :: b :: c :: d :: tail) = .ok map ∧
          ∀ rk < 8, ∀ fl < 8,
            (ledBit map rk fl = true ↔
              ((rk = r1 ∧ fl = f1) ∨ (rk = r2 ∧ fl = f2))) := by
  obtain ⟨f1, hf1, hscan1, hget1⟩ := file_scan_files a ha
  obtain ⟨r1, hr1, hpb⟩ := parse_rank_digits b hb
  obtain ⟨f2, hf2, hscan2, hget2⟩ := file_scan_files c hc
  obtain ⟨r2, hr2, hpd⟩ := parse_rank_digits d hd
  have hsq1 : square_cords [a, b] = .ok (f1, r1) := by
    simp [square_cords, hpb, hscan1]
  have hsq2 : square_cords (c :: d :: tail) = .ok (f2, r2) := by
    simp [square_cords, hpd, hscan2]
  have hdist : ¬(f1 = f2 ∧ r1 = r2) := by
    rintro ⟨hf, hr⟩
    apply hne
    have hac : a = c := by
      apply file_scan_inj a ha c hc
      rw [hscan1, hscan2, hf]
    have hbd : b = d := by
      apply parse_digit_inj b hb d hd
      rw [hpb, hpd, hr]
    rw [hac, hbd]
  refine ⟨f1, r1, f2, r2, hsq1, hsq2, hf1, hr1, hf2, hr2, hdist, ?_⟩
  have hch : (('0' == '1') = true) = False := by decide
  have hlen1 : (ZEROS.set r1 (insert_led f1)).length = 8 := by simp [ZEROS]
  have hlenZ : ZEROS.length = 8 := by simp [ZEROS]
  by_cases hrr : r1 = r2
  · -- same rank: one row with both file bits
    refine ⟨ZEROS.set r1 ((zeros8.set f1 '1').set f2 '1'), ?_, ?_⟩
    · simp [build_led_map_for_move, hsq1, hsq2, hrr]
    · intro rk hrk fl hfl
      simp only [ledBit]
      by_cases hrow : rk = r1
      · rw [hrow, list_getD_set_self _ _ _ _ (by omega),
          set_two_bits_getD f1 hf1 f2 hf2 fl hfl]
        by_cases hx : fl = f1 ∨ fl = f2
        · rw [if_pos hx]
          simp only [beq_self_eq_true, true_iff]
          rcases hx with hx | hx
          · exact Or.inl ⟨trivial, hx⟩
          · exact Or.inr ⟨hrr, hx⟩
        · rw [if_neg hx]
          simp only [hch, false_iff]
          rintro (⟨_, h2⟩ | ⟨_, h2⟩)
          · exact hx (Or.inl h2)
          · exact hx (Or.inr h2)
      · rw [list_getD_set_ne _ _ _ _ _ (fun hh => hrow hh.symm),
          ZEROS_getD rk hrk, zeros8_getD fl hfl]
        simp only [hch, false_iff]
        rintro (⟨h1, _⟩ | ⟨h1, _⟩)
        · exact hrow h1
        · exact hrow (h1.trans hrr.symm)
  · -- different ranks: two rows, one bit each
    refine ⟨(ZEROS.set r1 (insert_led f1)).set r2 (insert_led f2), ?_, ?_⟩
    · simp [build_led_map_for_move, hsq1, hsq2, hrr]
    · intro rk hrk fl hfl
      simp only [ledBit]
      by_cases h2 : rk = r2
      · rw [h2, list_getD_set_self _ _ _ _ (by omega),
          insert_led_getD f2 hf2 fl hfl]
        by_cases hx : fl = f2
        · rw [if_pos hx]
          simp only [beq_self_eq_true, true_iff]
          exact Or.inr ⟨trivial, hx⟩
        · rw [if_neg hx]
          simp only [hch, false_iff]
          rintro (⟨h1, _⟩ | ⟨_, h2x⟩)
          · exact hrr h1.symm
          · exact hx h2x
      · rw [list_getD_set_ne _ _ _ _ _ (fun hh => h2 hh.symm)]
        by_cases h1 : rk = r1
        · rw [h1, list_getD_set_self _ _ _ _ (by omega),
            insert_led_getD f1 hf1 fl hfl]
          by_cases hx : fl = f1
          · rw [if_pos hx]
            simp only [beq_self_eq_true, true_iff]
            exact Or.inl ⟨trivial, hx⟩
          · rw [if_neg hx]
            simp only [hch, false_iff]
            rintro (⟨_, h2x⟩ | ⟨hcon, _⟩)
            · exact hx h2x
            · exact hrr hcon
        · rw [list_getD_set_ne _ _ _ _ _ (fun hh => h1 hh.symm),
            ZEROS_getD rk hrk, zeros8_getD fl hfl]
          simp only [hch, false_iff]
          rintro (⟨hcon, _⟩ | ⟨hcon, _⟩)
          · exact h1 hcon
          · exact h2 hcon

/-- C4: for every well-formed UCI move, `square_cords` resolves both
squares to in-range 0-based coordinates and `build_led_map_for_move`
produces an 8-row map in which exactly the origin and destination bits
are set — two rows with one bit each when the ranks differ, the two file
bits within the single shared row otherwise, every other bit clear (the
characterization below covers both cases at once). -/
theorem build_led_map_for_move_spec (move : List Char) (h : wf_uci move) :
    ∃ f1 r1 f2 r2,
      square_cords (move.take 2) = .ok (f1, r1) ∧
        square_cords (move.drop 2) = .ok (f2, r2) ∧
        f1 < 8 ∧ r1 < 8 ∧ f2 < 8 ∧ r2 < 8 ∧ ¬(f1 = f2 ∧ r1 = r2) ∧
        ∃ map, build_led_map_for_move move = .ok map ∧
          ∀ rk < 8, ∀ fl < 8,
            (ledBit map rk fl = true ↔
              ((rk = r1 ∧ fl = f1) ∨ (rk = r2 ∧ fl = f2))) := by
  rcases move with _ | ⟨a, _ | ⟨b, _ | ⟨c, _ | ⟨d, tail⟩⟩⟩⟩
  · exact h.elim
  · exact h.elim
  · exact h.elim
  · exact h.elim
  rcases tail with _ | ⟨e, _ | ⟨x, t3⟩⟩
  · obtain ⟨ha, hb, hc, hd, hne⟩ := h
    exact build_led_map_core a b c d [] ha hb hc hd hne
  · obtain ⟨ha, hb, hc, hd, hne⟩ := h
    exact build_led_map_core a b c d [e] ha hb hc hd hne
  · exact h.elim

/-- C4 witness: the move `"e2e4"` is well formed and its LED map lights
exactly e2 and e4. -/
theorem build_led_map_for_move_spec_witness :
    wf_uci ['e', '2', 'e', '4'] ∧
      ∃ f1 r1 f2 r2,
        square_cords (['e', '2', 'e', '4'].take 2) = .ok (f1, r1) ∧
          square_cords (['e', '2', 'e', '4'].drop 2) = .ok (f2, r2) ∧
          f1 < 8 ∧ r1 < 8 ∧ f2 < 8 ∧ r2 < 8 ∧ ¬(f1 = f2 ∧ r1 = r2) ∧
          ∃ map, build_led_map_for_move ['e', '2', 'e', '4'] = .ok map ∧
            ∀ rk < 8, ∀ fl < 8,
              (ledBit map rk fl = true ↔
                ((rk = r1 ∧ fl = f1) ∨ (rk = r2 ∧ fl = f2))) :=
  ⟨by simp only [wf_uci]; decide,
    build_led_map_for_move_spec ['e', '2', 'e', '4']
      (by simp only [wf_uci]; decide)⟩

/-- C5 counterexample: with an empty board against a board holding one
piece on h1 and no last move, the claim's characterization fails — the
inner loop runs over `range(ord("a"), ord("h"))`, so the differing
square h1 is never examined: the returned flag is `False` and no bit is
set. -/
theorem show_board_diff_counterexample :
    ¬ c5SpecShape c5BoardEmpty c5BoardH1 none := by
  unfold c5SpecShape
  decide

/-- The diff flag accumulated over one rank's inner loop: true when it
was already true or some scanned file differs outside the last move. -/
theorem show_board_diff_inner_bool (b1 b2 : PBoard) (lm : Option (List Char))
    (rk : Nat) (L : List Nat) (st : Bool × List (List Char)) :
    (L.foldl (show_board_diff_step b1 b2 lm rk) st).1 =
      (st.1 || L.any (fun fl => decide (b1 fl rk ≠ b2 fl rk) &&
        !square_in_last_move lm (square_name fl rk))) := by
  induction L generalizing st with
  | nil => simp
  | cons fl rest ih =>
    rw [List.foldl_cons, ih]
    by_cases hd : b1 fl rk ≠ b2 fl rk
    · simp [show_board_diff_step, hd, Bool.or_assoc]
    · have hd2 : b1 fl rk = b2 fl rk := not_not.mp hd
      simp [show_board_diff_step, hd, hd2]

/-- The map after one rank's inner loop: untouched when no scanned file
differs, else row `rk` is overwritten with the single bit of the last
differing file scanned — each write splices into the constant zero row,
so only the last one survives. -/
theorem show_board_diff_inner_map (b1 b2 : PBoard) (lm : Option (List Char))
    (rk : Nat) (L : List Nat) (st : Bool × List (List Char)) :
    (L.foldl (show_board_diff_step b1 b2 lm rk) st).2 =
      match (L.filter (fun fl => decide (b1 fl rk ≠ b2 fl rk))).getLast? with
      | some fl => st.2.set rk (insert_led fl)
      | none => st.2 := by
  induction L using List.reverseRecOn generalizing st with
  | nil => simp
  | append_singleton L fl ih =>
    rw [List.foldl_append, List.foldl_cons, List.foldl_nil, List.filter_append]
    by_cases hd : b1 fl rk ≠ b2 fl rk
    · have hfl : List.filter (fun fl => decide (b1 fl rk ≠ b2 fl rk)) [fl] = [fl] := by
        simp [hd]
      rw [hfl, show_board_diff_step, if_pos hd, ih]
      cases hlast : (L.filter (fun fl => decide (b1 fl rk ≠ b2 fl rk))).getLast? with
      | none =>
        have : L.filter (fun fl => decide (b1 fl rk ≠ b2 fl rk)) = [] := by
          simpa using hlast
        simp [this]
      | some g =>
        simp only [List.getLast?_concat]
        simp [List.set_set]
    · have hfl : List.filter (fun fl => decide (b1 fl rk ≠ b2 fl rk)) [fl] = [] := by
        simp [hd]
      rw [hfl, List.append_nil, show_board_diff_step, if_neg hd, ih]

/-- The inner loop never changes the number of map rows. -/
theorem show_board_diff_inner_len (b1 b2 : PBoard) (lm : Option (List Char))
    (rk : Nat) (L : List Nat) (st : Bool × List (List Char)) :
    (L.foldl (show_board_diff_step b1 b2 lm rk) st).2.length = st.2.length := by
  rw [show_board_diff_inner_map]
  cases (L.filter (fun fl => decide (b1 fl rk ≠ b2 fl rk))).getLast? with
  | none => rfl
  | some fl => simp

/-- Ranks the outer loop has not visited keep their row. -/
theorem show_board_diff_outer_untouched (b1 b2 : PBoard)
    (lm : Option (List Char)) (R : List Nat) (st : Bool × List (List Char))
    (r : Nat) (hr : r ∉ R) :
    ((R.foldl
        (fun st rk =>
          (List.range 7).foldl (show_board_diff_step b1 b2 lm rk) st)
        st).2.getD r zeros8) = st.2.getD r zeros8 := by
  induction R generalizing st with
  | nil => rfl
  | cons rk R2 ih =>
    have hne : r ≠ rk := fun hh => hr (by simp [hh])
    rw [List.foldl_cons, ih _ (fun hh => hr (by simp [hh]))]
    rw [show_board_diff_inner_map]
    cases ((List.range 7).filter
        (fun fl => decide (b1 fl rk ≠ b2 fl rk))).getLast? with
    | none => rfl
    | some fl =>
      exact list_getD_set_ne _ _ _ _ _ (fun hh => hne hh.symm)

/-- After the outer loop, the row of a visited rank `r` is the all-zero
row overwritten with the bit of the last differing file among 0..6 of
that rank — or kept as it started when no such file differs. -/
theorem show_board_diff_outer_mem (b1 b2 : PBoard) (lm : Option (List Char))
    (R : List Nat) (st : Bool × List (List Char)) (r : Nat) (hnd : R.Nodup)
    (hr : r ∈ R) (hlen : st.2.length = 8) (hr8 : r < 8) :
    ((R.foldl
        (fun st rk =>
          (List.range 7).foldl (show_board_diff_step b1 b2 lm rk) st)
        st).2.getD r zeros8) =
      match ((List.range 7).filter
          (fun fl => decide (b1 fl r ≠ b2 fl r))).getLast? with
      | some fl => insert_led fl
      | none => st.2.getD r zeros8 := by
  induction R generalizing st with
  | nil => simp at hr
  | cons rk R2 ih =>
    obtain ⟨hrk2, hnd2⟩ := List.nodup_cons.mp hnd
    rw [List.foldl_cons]
    by_cases hcase : r = rk
    · subst hcase
      have hnotin : r ∉ R2 := hrk2
      rw [show_board_diff_outer_untouched b1 b2 lm R2 _ r hnotin,
        show_board_diff_inner_map]
      cases ((List.range 7).filter
          (fun fl => decide (b1 fl r ≠ b2 fl r))).getLast? with
      | none => rfl
      | some fl =>
        exact list_getD_set_self _ _ _ _ (by omega)
    · have hr2 : r ∈ R2 := by
        rcases List.mem_cons.mp hr with hh | hh
        · exact absurd hh hcase
        · exact hh
      rw [ih _ hnd2 hr2 (by
          rw [show_board_diff_inner_len]
          exact hlen)]
      rw [show_board_diff_inner_map]
      cases ((List.range 7).filter
          (fun fl => decide (b1 fl rk ≠ b2 fl rk))).getLast? with
      | none => rfl
      | some fl =>
        rw [list_getD_set_ne _ _ _ _ _ (fun hh => hcase hh.symm)]

/-- The last element of `filter p (range n)` is the greatest index below
`n` satisfying `p`. -/
theorem getLast_filter_range (n : Nat) (p : Nat → Bool) (f : Nat)
    (h : ((List.range n).filter p).getLast? = some f) :
    p f = true ∧ f < n ∧ ∀ g, f < g → g < n → p g = false := by
  induction n with
  | zero => simp at h
  | succ m ih =>
    rw [List.range_succ, List.filter_append] at h
    by_cases hp : p m
    · have hfl : List.filter p [m] = [m] := by simp [hp]
      rw [hfl, List.getLast?_concat] at h
      obtain rfl : m = f := by simpa using h
      exact ⟨hp, by omega, fun g h1 h2 => by omega⟩
    · have hfl : List.filter p [m] = [] := by simp [hp]
      rw [hfl, List.append_nil] at h
      obtain ⟨h1, h2, h3⟩ := ih h
      refine ⟨h1, by omega, fun g hg1 hg2 => ?_⟩
      by_cases hgm : g = m
      · subst hgm
        exact Bool.not_eq_true _ |>.mp hp
      · exact h3 g hg1 (by omega)

/-- When `filter p (range n)` has no last element, no index below `n`
satisfies `p`. -/
theorem getLast_filter_range_none (n : Nat) (p : Nat → Bool)
    (h : ((List.range n).filter p).getLast? = none) :
    ∀ g, g < n → p g = false := by
  intro g hg
  have hnil : (List.range n).filter p = [] := by simpa using h
  by_cases hp : p g
  · exfalso
    have : g ∈ (List.range n).filter p := by
      rw [List.mem_filter]
      exact ⟨List.mem_range.mpr hg, hp⟩
    rw [hnil] at this
    simp at this
  · exact Bool.not_eq_true _ |>.mp hp

/-- The diff flag accumulated over the whole outer loop. -/
theorem show_board_diff_outer_bool (b1 b2 : PBoard) (lm : Option (List Char))
    (R : List Nat) (st : Bool × List (List Char)) :
    ((R.foldl
        (fun st rk =>
          (List.range 7).foldl (show_board_diff_step b1 b2 lm rk) st)
        st).1) =
      (st.1 || R.any (fun rk => (List.range 7).any
        (fun fl => decide (b1 fl rk ≠ b2 fl rk) &&
          !square_in_last_move lm (square_name fl rk)))) := by
  induction R generalizing st with
  | nil => simp
  | cons rk R2 ih =>
    rw [List.foldl_cons, ih, show_board_diff_inner_bool]
    simp [Bool.or_assoc]

/-- C5 as corrected: the flag returned by `show_board_diff` is true iff
some square with file a..g (the h-file is never examined) differs and is
not contained in the last-move string; and a bit is set in the produced
map exactly at the last-scanned differing file of each rank — the
greatest differing file index below 7 — because every write re-splices
the constant zero row.  Squares covered by the last move are excluded
only from the flag, not from the map. -/
theorem show_board_diff_actual (b1 b2 : PBoard) (lm : Option (List Char)) :
    ((show_board_diff b1 b2 lm).1 = true ↔
      ∃ rk < 8, ∃ fl < 7, b1 fl rk ≠ b2 fl rk ∧
        square_in_last_move lm (square_name fl rk) = false) ∧
    (∀ rk < 8, ∀ fl < 8,
      (ledBit (show_board_diff b1 b2 lm).2 rk fl = true ↔
        (fl < 7 ∧ b1 fl rk ≠ b2 fl rk ∧
          ∀ g, fl < g → g < 7 → b1 g rk = b2 g rk))) := by
  constructor
  · rw [show_board_diff]
    rw [show_board_diff_outer_bool]
    simp only [Bool.false_or, List.any_eq_true, List.mem_range,
      Bool.and_eq_true, decide_eq_true_eq, Bool.not_eq_true']
  · intro rk hrk fl hfl
    have hrow := show_board_diff_outer_mem b1 b2 lm (List.range 8)
      (false, ZEROS) rk (List.nodup_range 8) (List.mem_range.mpr hrk)
      (by simp [ZEROS]) hrk
    simp only [ledBit, show_board_diff]
    rw [hrow]
    cases hlast : ((List.range 7).filter
        (fun g => decide (b1 g rk ≠ b2 g rk))).getLast? with
    | none =>
      have hall := getLast_filter_range_none 7 _ hlast
      rw [ZEROS_getD rk hrk, zeros8_getD fl hfl]
      simp only [show (('0' == '1') = true) = False by decide, false_iff]
      rintro ⟨hlt, hdiff, _⟩
      have := hall fl hlt
      simp only [decide_eq_false_iff_not, not_not] at this
      exact hdiff this
    | some f =>
      obtain ⟨hpf, hf7, hmax⟩ := getLast_filter_range 7 _ f hlast
      simp only [decide_eq_true_eq] at hpf
      rw [insert_led_getD f (by omega) fl hfl]
      by_cases hx : fl = f
      · rw [if_pos hx]
        subst hx
        simp only [beq_self_eq_true, true_iff]
        refine ⟨hf7, hpf, fun g hg1 hg2 => ?_⟩
        have := hmax g hg1 hg2
        simpa [decide_eq_false_iff_not, not_not] using this
      · rw [if_neg hx]
        simp only [show (('0' == '1') = true) = False by decide, false_iff]
        rintro ⟨hlt, hdiff, hflmax⟩
        rcases Nat.lt_trichotomy fl f with hc | hc | hc
        · exact hpf (hflmax f hc hf7)
        · exact hx hc
        · have := hmax fl hc hlt
          simp only [decide_eq_false_iff_not, not_not] at this
          exact hdiff this

/-- C1 witness: the trichotomy evaluated on the demo engine at a
reported fen reachable by one legal move. -/
theorem find_move_from_fen_change_spec_witness :
    ("1" = demoEngine.board_fen 0 ∧
        (find_move_from_fen_change demoEngine 0 "1").1 = .error .noMove) ∨
      ("1" ≠ demoEngine.board_fen 0 ∧
        ∃ m ∈ demoEngine.legal_moves 0,
          demoEngine.board_fen (demoEngine.push 0 m) = "1" ∧
            (find_move_from_fen_change demoEngine 0 "1").1 =
              .ok (demoEngine.uci m)) ∨
      ("1" ≠ demoEngine.board_fen 0 ∧
        (∀ m ∈ demoEngine.legal_moves 0,
          demoEngine.board_fen (demoEngine.push 0 m) ≠ "1") ∧
        (find_move_from_fen_change demoEngine 0 "1").1 =
          .error (.illegalMove "1" (demoEngine.board_fen 0))) :=
  find_move_from_fen_change_spec demoEngine 0 "1"

/-- C6 witness: the retry policy evaluated on a concrete one-element
outcome tail. -/
theorem make_move_retry_policy_witness :
    make_move (some "e2e4") false [.terminalRejection, .transientRejection] =
        (.notYourTurnBreak, false) ∧
      make_move (some "e2e4") false
          [.transientRejection, .transientRejection] =
        make_move (some "e2e4") true [.transientRejection] ∧
      make_move (some "e2e4") true [.transientRejection, .transientRejection] =
        (.gameDone, false) ∧
      ((make_move (some "e2e4") false
            [.transientRejection, .transientRejection]).1 = .gameDone ↔
        [SubmitOutcome.transientRejection].head? = some .transientRejection) :=
  make_move_retry_policy "e2e4" [.transientRejection]

/-- C5 witness for the corrected characterization, evaluated on the
counterexample boards. -/
theorem show_board_diff_actual_witness :
    ((show_board_diff c5BoardEmpty c5BoardH1 none).1 = true ↔
      ∃ rk < 8, ∃ fl < 7, c5BoardEmpty fl rk ≠ c5BoardH1 fl rk ∧
        square_in_last_move none (square_name fl rk) = false) ∧
    (∀ rk < 8, ∀ fl < 8,
      (ledBit (show_board_diff c5BoardEmpty c5BoardH1 none).2 rk fl = true ↔
        (fl < 7 ∧ c5BoardEmpty fl rk ≠ c5BoardH1 fl rk ∧
          ∀ g, fl < g → g < 7 → c5BoardEmpty g rk = c5BoardH1 g rk))) :=
  show_board_diff_actual c5BoardEmpty c5BoardH1 none
